import Mathlib

/-!
Verification of the "currenton" scoped, thread-local override registry
(`src/currenton.cc`).

The C++ code provides, per value type `T` and per thread, a stack of `T`
values (`std::stack<T> stack`, a `thread_local` member of `Currenton<T>`):

* `Currenton<T>::get()` returns a reference to `stack.top()` when the stack
  is non-empty and throws `std::runtime_error("No current object")` otherwise;
* `Currenton<T>::makeCurrent(T&& t, std::function<void()> f)` pushes `t`,
  calls `f()`, and pops — including on the exception path, where it pops and
  rethrows the caught exception unchanged (`catch(...) { pop; throw; }`).

We embed a single thread's stack as a `List T` with the top at the head
(matching `std::stack`'s `top`).  Client actions (`std::function<void()>`
bodies, which may themselves call `get` and `makeCurrent`) are embedded as a
free-monad-style syntax `Prog` in continuation-passing normal form, and the
interpreter `run` gives their state semantics together with an event trace
(pushes, pops, action invocations, and the results of `get` calls) used to
state the LIFO and single-invocation properties.
-/

set_option maxHeartbeats 1000000

namespace Currenton

/-- Exceptions. `noCurrentObject` models the
`std::runtime_error("No current object")` thrown by `Currenton<T>::get` on an
empty stack; `thrown code` models an arbitrary exception raised by client
code (caught and re-raised by `makeCurrent`'s `catch(...)` handler). -/
inductive Err where
  | noCurrentObject : Err
  | thrown (code : Nat) : Err
deriving DecidableEq, Repr

/-- Observable events of one thread's execution: a push onto the stack, a pop
from it, the invocation of a `makeCurrent` action `f`, and the outcome of a
`get` call. -/
inductive Ev (T : Type) where
  | push (v : T)
  | pop
  | invoke
  | got (r : Except Err T)

/-- Syntax of client programs running on one thread against the registry for
one value type `T`, in continuation-passing normal form.  A
`std::function<void()>` body passed to `makeCurrent` can return, throw, call
`Currenton<T>::get()`, or call `Currenton<T>::makeCurrent` again
(reentrancy); it has no other way to touch the stack, since the stack and
`getCurrenton` are private. -/
inductive Prog (T : Type) : Type → Type 1 where
  | ret {R : Type} (r : R) : Prog T R
  | fail {R : Type} (e : Err) : Prog T R
  | getThen {R : Type} (k : T → Prog T R) : Prog T R
  | withThen {R : Type} (v : T) (body : Prog T Unit) (k : Prog T R) : Prog T R

/-- `Currenton<T>::get` on a stack: the top element when non-empty, the
`noCurrentObject` error otherwise (lines 50–58 of the source). -/
def get {T : Type} (s : List T) : Except Err T :=
  match s with
  | [] => .error .noCurrentObject
  | v :: _ => .ok v

/-- Outcome of running a program on one thread: result (normal return or
propagated exception), final stack, and the event trace. -/
structure Out (T R : Type) where
  res : Except Err R
  stk : List T
  tr : List (Ev T)

/-- Interpreter.  `getThen` mirrors `get` (read the top, or fail on an empty
stack, leaving the stack untouched); `withThen v body k` mirrors
`makeCurrent`: push `v`, run `body` on the extended stack, pop, and either
rethrow `body`'s exception or continue with `k` (lines 60–69 of the
source). -/
def run {T R : Type} : Prog T R → List T → Out T R
  | .ret r, s => ⟨.ok r, s, []⟩
  | .fail e, s => ⟨.error e, s, []⟩
  | .getThen k, s =>
    match s with
    | [] => ⟨.error .noCurrentObject, [], [.got (.error .noCurrentObject)]⟩
    | v :: t =>
      let o := run (k v) (v :: t)
      ⟨o.res, o.stk, .got (.ok v) :: o.tr⟩
  | .withThen v body k, s =>
    let ob := run body (v :: s)
    match ob.res with
    | .ok _ =>
      let ok' := run k ob.stk.tail
      ⟨ok'.res, ok'.stk, .push v :: .invoke :: (ob.tr ++ .pop :: ok'.tr)⟩
    | .error e =>
      ⟨.error e, ob.stk.tail, .push v :: .invoke :: (ob.tr ++ [.pop])⟩

/-- `Currenton<T>::makeCurrent(v, body)` run from stack `s`, in isolation:
push `v`, invoke `body` once, pop, and return `body`'s outcome (rethrowing
its exception unchanged).  The pop removes the head of whatever stack `body`
leaves behind, exactly as `stack.pop()` does in the source. -/
def makeCurrent {T : Type} (v : T) (body : Prog T Unit) (s : List T) :
    Out T Unit :=
  let ob := run body (v :: s)
  match ob.res with
  | .ok _ => ⟨.ok (), ob.stk.tail, .push v :: .invoke :: (ob.tr ++ [.pop])⟩
  | .error e => ⟨.error e, ob.stk.tail, .push v :: .invoke :: (ob.tr ++ [.pop])⟩

/-- Effect of a single event on the stack (`invoke` and `got` do not touch
it). -/
def applyEv {T : Type} (s : List T) : Ev T → List T
  | .push v => v :: s
  | .pop => s.tail
  | .invoke => s
  | .got _ => s

/-- Replay a trace of events over a stack. -/
def applyEvs {T : Type} (evs : List (Ev T)) (s : List T) : List T :=
  evs.foldl applyEv s

/-- Recognizer for action-invocation events. -/
def isInvoke {T : Type} : Ev T → Bool
  | .invoke => true
  | _ => false

/-- Number of action invocations recorded in a trace. -/
def invokeCount {T : Type} (tr : List (Ev T)) : Nat :=
  tr.countP isInvoke

/-- Programs running on one thread against the registries of two distinct
value types `A` and `B` at once.  In the source, `Currenton<A>` and
`Currenton<B>` are distinct template instantiations, each with its own
`thread_local` stack (`getCurrenton`, lines 72–76), so the thread's state is
the pair of the two stacks. -/
inductive Prog2 (A B : Type) : Type → Type 1 where
  | ret {R : Type} (r : R) : Prog2 A B R
  | fail {R : Type} (e : Err) : Prog2 A B R
  | getAThen {R : Type} (k : A → Prog2 A B R) : Prog2 A B R
  | getBThen {R : Type} (k : B → Prog2 A B R) : Prog2 A B R
  | withAThen {R : Type} (v : A) (body : Prog2 A B Unit) (k : Prog2 A B R) :
      Prog2 A B R
  | withBThen {R : Type} (v : B) (body : Prog2 A B Unit) (k : Prog2 A B R) :
      Prog2 A B R

/-- Interpreter over the pair of per-type stacks: `Currenton<A>` operations
read and mutate only the first component, `Currenton<B>` operations only the
second. -/
def run2 {A B R : Type} :
    Prog2 A B R → List A × List B → Except Err R × (List A × List B)
  | .ret r, st => (.ok r, st)
  | .fail e, st => (.error e, st)
  | .getAThen k, (sa, sb) =>
    match sa with
    | [] => (.error .noCurrentObject, ([], sb))
    | v :: t => run2 (k v) (v :: t, sb)
  | .getBThen k, (sa, sb) =>
    match sb with
    | [] => (.error .noCurrentObject, (sa, []))
    | v :: t => run2 (k v) (sa, v :: t)
  | .withAThen v body k, (sa, sb) =>
    let o := run2 body (v :: sa, sb)
    match o.1 with
    | .ok _ => run2 k (o.2.1.tail, o.2.2)
    | .error e => (.error e, (o.2.1.tail, o.2.2))
  | .withBThen v body k, (sa, sb) =>
    let o := run2 body (sa, v :: sb)
    match o.1 with
    | .ok _ => run2 k (o.2.1, o.2.2.tail)
    | .error e => (.error e, (o.2.1, o.2.2.tail))

/-- A program that only uses the registry for type `A`, viewed in the
two-type world. -/
def embedA {A B R : Type} : Prog A R → Prog2 A B R
  | .ret r => .ret r
  | .fail e => .fail e
  | .getThen k => .getAThen (fun v => embedA (k v))
  | .withThen v body k => .withAThen v (embedA body) (embedA k)

/-- A program that only uses the registry for type `B`, viewed in the
two-type world. -/
def embedB {A B R : Type} : Prog B R → Prog2 A B R
  | .ret r => .ret r
  | .fail e => .fail e
  | .getThen k => .getBThen (fun v => embedB (k v))
  | .withThen v body k => .withBThen v (embedB body) (embedB k)

/-- Machine programs: client programs plus the intermediate form
`inFrame body k`, the state of a `makeCurrent` call that has already pushed
its value and is executing its action `body`; when `body` finishes
(normally or with an exception) the frame pops and either continues with
`k` or rethrows.  This is the unit of interleaving for the concurrency
model: each constructor step is one atomic operation on the executing
thread's own `thread_local` stack. -/
inductive M (T : Type) : Type → Type 1 where
  | ret {R : Type} (r : R) : M T R
  | fail {R : Type} (e : Err) : M T R
  | getThen {R : Type} (k : T → M T R) : M T R
  | withThen {R : Type} (v : T) (body : M T Unit) (k : M T R) : M T R
  | inFrame {R : Type} (body : M T Unit) (k : M T R) : M T R

/-- View a client program as a machine program. -/
def toM {T R : Type} : Prog T R → M T R
  | .ret r => .ret r
  | .fail e => .fail e
  | .getThen k => .getThen (fun v => toM (k v))
  | .withThen v body k => .withThen v (toM body) (toM k)

/-- One atomic step of a machine program on its thread's stack: `none` when
the program has terminated (returned or escaped with an exception).  A
`get` reads the top (or fails); entering `makeCurrent` pushes; a finished
frame pops and continues or rethrows; a step inside a frame is a step of
its body. -/
def stepF {T R : Type} : M T R → List T → Option (M T R × List T)
  | .ret _, _ => none
  | .fail _, _ => none
  | .getThen k, s =>
    match s with
    | [] => some (.fail .noCurrentObject, [])
    | v :: t => some (k v, v :: t)
  | .withThen v body k, s => some (.inFrame body k, v :: s)
  | .inFrame body k, s =>
    match body with
    | .ret _ => some (k, s.tail)
    | .fail e => some (.fail e, s.tail)
    | b => (stepF b s).map (fun c => (.inFrame c.1 k, c.2))

/-- Big-step semantics of machine programs (result and final stack). -/
def runM {T R : Type} : M T R → List T → Except Err R × List T
  | .ret r, s => (.ok r, s)
  | .fail e, s => (.error e, s)
  | .getThen k, s =>
    match s with
    | [] => (.error .noCurrentObject, [])
    | v :: t => runM (k v) (v :: t)
  | .withThen v body k, s =>
    match runM body (v :: s) with
    | (.ok _, s1) => runM k s1.tail
    | (.error e, s1) => (.error e, s1.tail)
  | .inFrame body k, s =>
    match runM body s with
    | (.ok _, s1) => runM k s1.tail
    | (.error e, s1) => (.error e, s1.tail)

/-- Exact number of atomic steps a machine program takes on a given
stack. -/
def msteps {T R : Type} : M T R → List T → Nat
  | .ret _, _ => 0
  | .fail _, _ => 0
  | .getThen k, s =>
    match s with
    | [] => 1
    | v :: t => 1 + msteps (k v) (v :: t)
  | .withThen v body k, s =>
    2 + msteps body (v :: s) +
      (match runM body (v :: s) with
       | (.ok _, s1) => msteps k s1.tail
       | (.error _, _) => 0)
  | .inFrame body k, s =>
    1 + msteps body s +
      (match runM body s with
       | (.ok _, s1) => msteps k s1.tail
       | (.error _, _) => 0)

/-- A machine program that has finished: returned a value or escaped with an
exception. -/
def isTerminal {T R : Type} : M T R → Bool
  | .ret _ => true
  | .fail _ => true
  | _ => false

/-- One scheduler-chosen step of a thread configuration (program and that
thread's private stack); a terminated thread is left unchanged. -/
def step1 {T R : Type} (c : M T R × List T) : M T R × List T :=
  (stepF c.1 c.2).getD c

/-- Iterate `step1`. -/
def iterStep {T R : Type} : Nat → M T R × List T → M T R × List T
  | 0, c => c
  | n + 1, c => iterStep n (step1 c)

/-- Terminal configuration corresponding to a big-step outcome. -/
def termCfg {T R : Type} (x : Except Err R × List T) : M T R × List T :=
  match x with
  | (.ok a, s) => (.ret a, s)
  | (.error e, s) => (.fail e, s)

/-- Interleaved execution of two threads under an arbitrary schedule: `true`
steps thread 1, `false` steps thread 2.  Each thread has its own private
stack (the `thread_local` member of `getCurrenton`), so a step of one thread
touches only its own component of the joint state. -/
def run2threads {T R1 R2 : Type} :
    List Bool → (M T R1 × List T) × (M T R2 × List T) →
      (M T R1 × List T) × (M T R2 × List T)
  | [], cc => cc
  | true :: rest, (c1, c2) => run2threads rest (step1 c1, c2)
  | false :: rest, (c1, c2) => run2threads rest (c1, step1 c2)

theorem applyEvs_nil {T : Type} (s : List T) : applyEvs [] s = s := rfl

theorem applyEvs_cons {T : Type} (e : Ev T) (evs : List (Ev T)) (s : List T) :
    applyEvs (e :: evs) s = applyEvs evs (applyEv s e) := rfl

theorem applyEvs_append {T : Type} (a b : List (Ev T)) (s : List T) :
    applyEvs (a ++ b) s = applyEvs b (applyEvs a s) := by
  simp [applyEvs]

/-- Every client program leaves the thread's stack exactly as it found it:
each `makeCurrent` pops the one element it pushed, and `get` never mutates. -/
theorem run_stk {T R : Type} (p : Prog T R) (s : List T) :
    (run p s).stk = s := by
  induction p generalizing s with
  | ret r => rfl
  | fail e => rfl
  | getThen k ih =>
    cases s with
    | nil => rfl
    | cons v t => simpa [run] using ih v (v :: t)
  | withThen v body k ihb ihk =>
    have hb := ihb (v :: s)
    cases hr : (run body (v :: s)).res with
    | ok u => simp [run, hr, hb, ihk]
    | error e => simp [run, hr, hb]

/-- Replaying a program's trace over its initial stack is the identity: the
pushes and pops in any execution are balanced, on the normal path and on the
exception path alike. -/
theorem run_tr_apply {T R : Type} (p : Prog T R) (s : List T) :
    applyEvs (run p s).tr s = s := by
  induction p generalizing s with
  | ret r => rfl
  | fail e => rfl
  | getThen k ih =>
    cases s with
    | nil => rfl
    | cons v t =>
      simpa [run, applyEvs_cons, applyEv] using ih v (v :: t)
  | withThen v body k ihb ihk =>
    have hb := ihb (v :: s)
    have hstk := run_stk body (v :: s)
    cases hr : (run body (v :: s)).res with
    | ok u =>
      have hk := ihk s
      simp [run, hr, applyEvs_cons, applyEv, applyEvs_append, hb, hstk, hk]
    | error e =>
      simp [run, hr, applyEvs_cons, applyEvs_append, applyEvs_nil, applyEv,
        hb, hstk]

/-- C1: For every client program (hence for every sequence of nested
`makeCurrent` calls on one thread) and every point of its execution, a `get`
call returns exactly the top of the stack obtained by replaying the preceding
push/pop history over the initial stack — that is, the most recently pushed,
not-yet-popped value (or the `noCurrentObject` error when none remains). -/
theorem c1_get_reads_most_recent_push {T R : Type} (p : Prog T R)
    (s : List T) (pre : List (Ev T)) (r : Except Err T) (post : List (Ev T))
    (h : (run p s).tr = pre ++ .got r :: post) :
    r = get (applyEvs pre s) := by
  induction p generalizing s pre r post with
  | ret a => simp [run] at h
  | fail e => simp [run] at h
  | getThen k ih =>
    cases s with
    | nil =>
      cases pre with
      | nil =>
        simp [run] at h
        simp [h.1, get, applyEvs_nil]
      | cons e1 pre1 =>
        simp [run] at h
    | cons v t =>
      simp only [run, List.cons_append] at h
      cases pre with
      | nil =>
        simp only [List.nil_append] at h
        obtain ⟨h1, h2⟩ := List.cons.inj h
        simp [← Ev.got.inj h1, get, applyEvs_nil]
      | cons e1 pre1 =>
        obtain ⟨h1, h2⟩ := List.cons.inj h
        have := ih v (v :: t) pre1 r post h2
        simpa [applyEvs_cons, applyEv, ← h1] using this
  | withThen v body k ihb ihk =>
    have hstk : (run body (v :: s)).stk = v :: s := run_stk body (v :: s)
    cases hr : (run body (v :: s)).res with
    | ok u =>
      simp only [run, hr, hstk, List.tail_cons, List.cons_append] at h
      cases pre with
      | nil => simp at h
      | cons e1 pre1 =>
        obtain ⟨h1, h2⟩ := List.cons.inj h
        cases pre1 with
        | nil => simp at h2
        | cons e2 pre2 =>
          obtain ⟨h21, h22⟩ := List.cons.inj h2
          rcases List.append_eq_append_iff.1 h22 with ⟨w, hw1, hw2⟩ |
            ⟨w, hw1, hw2⟩
          · -- the `got` lies in the continuation's trace, after the pop
            cases w with
            | nil => simp at hw2
            | cons x w2 =>
              obtain ⟨hx, htrk⟩ := List.cons.inj hw2
              have := ihk s w2 r post htrk
              subst hw1
              simp [applyEvs_cons, applyEvs_append, applyEvs_nil, applyEv,
                ← h1, ← h21, ← hx, run_tr_apply body (v :: s), this]
          · -- the `got` lies inside the body's trace
            cases w with
            | nil => simp at hw2
            | cons x w2 =>
              obtain ⟨hx, hpost⟩ := List.cons.inj hw2
              have := ihb (v :: s) pre2 r w2 (by rw [hw1, ← hx])
              simp [applyEvs_cons, applyEv, ← h1, ← h21, this]
    | error e =>
      simp only [run, hr, hstk, List.tail_cons, List.cons_append] at h
      cases pre with
      | nil => simp at h
      | cons e1 pre1 =>
        obtain ⟨h1, h2⟩ := List.cons.inj h
        cases pre1 with
        | nil => simp at h2
        | cons e2 pre2 =>
          obtain ⟨h21, h22⟩ := List.cons.inj h2
          rcases List.append_eq_append_iff.1 h22 with ⟨w, hw1, hw2⟩ |
            ⟨w, hw1, hw2⟩
          · cases w with
            | nil => simp at hw2
            | cons x w2 =>
              obtain ⟨hx, htrk⟩ := List.cons.inj hw2
              exact absurd htrk.symm
                (List.append_ne_nil_of_right_ne_nil _ (by simp))
          · cases w with
            | nil => simp at hw2
            | cons x w2 =>
              obtain ⟨hx, hpost⟩ := List.cons.inj hw2
              have := ihb (v :: s) pre2 r w2 (by rw [hw1, ← hx])
              simp [applyEvs_cons, applyEv, ← h1, ← h21, this]

/-- Witness for C1 on a concrete nested execution: inside
`makeCurrent 5 (makeCurrent 7 (get; ...))`, the inner `get` returns `7`, the
most recently pushed not-yet-popped value. -/
theorem c1_witness :
    Except.ok 7 =
      get (applyEvs [Ev.push 5, Ev.invoke, Ev.push 7, Ev.invoke]
        ([] : List Nat)) :=
  c1_get_reads_most_recent_push
    (Prog.withThen 5
      (Prog.withThen 7 (Prog.getThen (fun _ => Prog.fail (Err.thrown 3)))
        (Prog.ret ()))
      (Prog.ret 0))
    [] [Ev.push 5, Ev.invoke, Ev.push 7, Ev.invoke] (Except.ok 7)
    [Ev.pop, Ev.pop] (by simp [run])

/-- C2: When the action raises an error, `makeCurrent` pops the value it
pushed before the error reaches the caller (the final stack is the original
`s`, and the trace ends with the `pop` event), and it propagates the very
same error unchanged — never masked, wrapped, or swallowed. -/
theorem c2_error_passthrough_after_pop {T : Type} (v : T)
    (body : Prog T Unit) (s : List T) (e : Err)
    (hr : (run body (v :: s)).res = .error e) :
    makeCurrent v body s =
      ⟨.error e, s, .push v :: .invoke :: ((run body (v :: s)).tr ++ [.pop])⟩ := by
  simp [makeCurrent, hr, run_stk body (v :: s)]

/-- Witness for C2: an action that throws exception code 3 after a nested
`get`; `makeCurrent 4` restores the empty stack and re-raises exactly
`thrown 3`. -/
theorem c2_witness :
    (run (Prog.getThen (fun _ => Prog.fail (Err.thrown 3)) : Prog Nat Unit)
        ((4 : Nat) :: [])).res = .error (Err.thrown 3) ∧
    makeCurrent 4
        (Prog.getThen (fun _ => Prog.fail (Err.thrown 3)) : Prog Nat Unit)
        ([] : List Nat) =
      ⟨.error (Err.thrown 3), [],
        [Ev.push 4, Ev.invoke, Ev.got (Except.ok 4), Ev.pop]⟩ :=
  ⟨rfl,
    c2_error_passthrough_after_pop 4
      (Prog.getThen (fun _ => Prog.fail (Err.thrown 3))) [] (Err.thrown 3)
      rfl⟩

/-- C3: Whether the action returns normally or raises, after `makeCurrent`
completes the calling thread's stack is exactly as it was before the call:
same contents, net zero growth. -/
theorem c3_stack_restored {T : Type} (v : T) (body : Prog T Unit)
    (s : List T) : (makeCurrent v body s).stk = s := by
  have hstk := run_stk body (v :: s)
  cases hr : (run body (v :: s)).res with
  | ok u => simp [makeCurrent, hr, hstk]
  | error e => simp [makeCurrent, hr, hstk]

/-- C4: On an empty stack — in particular on a thread that never called
`makeCurrent`, whose `std::stack` is default-constructed empty — `get` fails
with the recoverable `noCurrentObject` error rather than returning a value,
and the continuation of the `get` call is never entered. -/
theorem c4_empty_stack_error {T R : Type} (k : T → Prog T R) :
    get ([] : List T) = .error .noCurrentObject ∧
    run (Prog.getThen k) [] =
      ⟨.error .noCurrentObject, [], [.got (.error .noCurrentObject)]⟩ :=
  ⟨rfl, rfl⟩

/-- C5: Every pop performed by `makeCurrent` executes on a non-empty stack:
on both execution paths the stack at the moment of the pop is exactly
`v :: s` — the pushed value `v` is still on top, so the pop removes
precisely what this `makeCurrent` pushed (no skipped or double pops) and
restores `s`. -/
theorem c5_pop_precondition {T : Type} (v : T) (body : Prog T Unit)
    (s : List T) :
    (run body (v :: s)).stk = v :: s ∧ (run body (v :: s)).stk ≠ [] ∧
      (makeCurrent v body s).stk = s := by
  have hstk := run_stk body (v :: s)
  refine ⟨hstk, by simp [hstk], ?_⟩
  cases hr : (run body (v :: s)).res with
  | ok u => simp [makeCurrent, hr, hstk]
  | error e => simp [makeCurrent, hr, hstk]

/-- C6: `makeCurrent` returns whatever the action returns (the action's type
is `() -> void` in the source, so a normal return yields the unit result),
and when the action raises, it rethrows exactly what the action raised,
after popping. -/
theorem c6_returns_action_result {T : Type} (v : T) (body : Prog T Unit)
    (s : List T) :
    (makeCurrent v body s).res = (run body (v :: s)).res := by
  cases hr : (run body (v :: s)).res with
  | ok u => simp [makeCurrent, hr]
  | error e => simp [makeCurrent, hr]

/-- C9: `get` is a pure read: for every stack, whether it returns the top
value or fails with the empty-stack error, it leaves the calling thread's
stack completely unchanged. -/
theorem c9_get_pure_read {T : Type} (s : List T) :
    run (Prog.getThen Prog.ret) s = ⟨get s, s, [.got (get s)]⟩ := by
  cases s with
  | nil => rfl
  | cons v t => rfl

/-- C10: `makeCurrent v body` invokes the supplied action exactly once, on
the normal path and on the error path alike: its trace is precisely one
`invoke` event (between this call's push and pop) followed by the events of
that single run of the body, so the invocation count exceeds the body's own
by exactly one. -/
theorem c10_action_invoked_once {T : Type} (v : T) (body : Prog T Unit)
    (s : List T) :
    (makeCurrent v body s).tr =
      .push v :: .invoke :: ((run body (v :: s)).tr ++ [.pop]) ∧
    invokeCount (makeCurrent v body s).tr =
      invokeCount (run body (v :: s)).tr + 1 := by
  have htr : (makeCurrent v body s).tr =
      .push v :: .invoke :: ((run body (v :: s)).tr ++ [.pop]) := by
    cases hr : (run body (v :: s)).res with
    | ok u => simp [makeCurrent, hr]
    | error e => simp [makeCurrent, hr]
  refine ⟨htr, ?_⟩
  simp [htr, invokeCount, isInvoke, List.countP_cons, List.countP_append]

theorem run2_embedA {A B R : Type} (p : Prog A R) (sa : List A)
    (sb : List B) :
    run2 (embedA p) (sa, sb) = ((run p sa).res, ((run p sa).stk, sb)) := by
  induction p generalizing sa sb with
  | ret r => rfl
  | fail e => rfl
  | getThen k ih =>
    cases sa with
    | nil => rfl
    | cons v t => simp [run, run2, embedA, ih]
  | withThen v body k ihb ihk =>
    have hstk := run_stk body (v :: sa)
    cases hr : (run body (v :: sa)).res with
    | ok u => simp [run, run2, embedA, ihb, ihk, hr, hstk]
    | error e => simp [run, run2, embedA, ihb, hr, hstk]

theorem run2_embedB {A B R : Type} (p : Prog B R) (sa : List A)
    (sb : List B) :
    run2 (embedB p) (sa, sb) = ((run p sb).res, (sa, (run p sb).stk)) := by
  induction p generalizing sa sb with
  | ret r => rfl
  | fail e => rfl
  | getThen k ih =>
    cases sb with
    | nil => rfl
    | cons v t => simp [run, run2, embedB, ih]
  | withThen v body k ihb ihk =>
    have hstk := run_stk body (v :: sb)
    cases hr : (run body (v :: sb)).res with
    | ok u => simp [run, run2, embedB, ihb, ihk, hr, hstk]
    | error e => simp [run, run2, embedB, ihb, hr, hstk]

/-- C7: The registries for two distinct value types are fully independent
even on the same thread.  A program using only `Currenton<A>` operations
leaves the `B` stack untouched and its entire outcome (result, final `A`
stack) equals its outcome in the single-type semantics, i.e. is a function
of the `A` stack alone — it never observes the `B` stack; and vice versa. -/
theorem c7_type_independence {A B R1 R2 : Type} (pA : Prog A R1)
    (pB : Prog B R2) (sa : List A) (sb : List B) :
    run2 (embedA pA) (sa, sb) = ((run pA sa).res, ((run pA sa).stk, sb)) ∧
    run2 (embedB pB) (sa, sb) = ((run pB sb).res, (sa, (run pB sb).stk)) :=
  ⟨run2_embedA pA sa sb, run2_embedB pB sa sb⟩

/-- The machine semantics agrees with the trace interpreter `run` on client
programs. -/
theorem runM_toM {T R : Type} (p : Prog T R) (s : List T) :
    runM (toM p) s = ((run p s).res, (run p s).stk) := by
  induction p generalizing s with
  | ret r => rfl
  | fail e => rfl
  | getThen k ih =>
    cases s with
    | nil => rfl
    | cons v t => simp [run, runM, toM, ih]
  | withThen v body k ihb ihk =>
    have hstk := run_stk body (v :: s)
    cases hr : (run body (v :: s)).res with
    | ok u => simp [run, runM, toM, ihb, ihk, hr, hstk]
    | error e => simp [run, runM, toM, ihb, hr, hstk]

theorem runM_inFrame {T R : Type} (body : M T Unit) (k : M T R)
    (s : List T) :
    runM (.inFrame body k) s =
      match runM body s with
      | (.ok _, s1) => runM k s1.tail
      | (.error e, s1) => (.error e, s1.tail) := rfl

theorem msteps_inFrame {T R : Type} (body : M T Unit) (k : M T R)
    (s : List T) :
    msteps (.inFrame body k) s =
      1 + msteps body s +
        (match runM body s with
         | (.ok _, s1) => msteps k s1.tail
         | (.error _, _) => 0) := rfl

theorem stepF_inFrame_nonterminal {T R : Type} (body : M T Unit)
    (k : M T R) (s : List T) (h : isTerminal body = false) :
    stepF (.inFrame body k) s =
      (stepF body s).map (fun c => (.inFrame c.1 k, c.2)) := by
  cases body <;> simp_all [stepF, isTerminal]

/-- Non-terminal machine programs can always take a step. -/
theorem stepF_isSome {T R : Type} (c : M T R) (s : List T)
    (h : isTerminal c = false) : (stepF c s).isSome := by
  induction c generalizing s with
  | ret r => simp [isTerminal] at h
  | fail e => simp [isTerminal] at h
  | getThen k ih => cases s <;> simp [stepF]
  | withThen v body k ihb ihk => simp [stepF]
  | inFrame body k ihb ihk =>
    cases hb : isTerminal body with
    | true => cases body <;> simp_all [stepF, isTerminal]
    | false =>
      rw [stepF_inFrame_nonterminal body k s hb]
      simpa using ihb s hb

/-- Each atomic step preserves the big-step outcome and decreases the
remaining step count by exactly one. -/
theorem stepF_sound {T R : Type} (c : M T R) :
    ∀ (s : List T) (c' : M T R) (s' : List T),
      stepF c s = some (c', s') →
      runM c' s' = runM c s ∧ msteps c s = msteps c' s' + 1 := by
  induction c with
  | ret r => intro s c' s' h; simp [stepF] at h
  | fail e => intro s c' s' h; simp [stepF] at h
  | getThen k ih =>
    intro s c' s' h
    cases s with
    | nil =>
      simp [stepF] at h
      obtain ⟨hc, hs⟩ := h
      subst hc; subst hs
      exact ⟨rfl, by simp [msteps]⟩
    | cons v t =>
      simp [stepF] at h
      obtain ⟨hc, hs⟩ := h
      subst hc; subst hs
      exact ⟨rfl, by simp [msteps, Nat.add_comm]⟩
  | withThen v body k ihb ihk =>
    intro s c' s' h
    simp [stepF] at h
    obtain ⟨hc, hs⟩ := h
    subst hc; subst hs
    refine ⟨rfl, ?_⟩
    show msteps (M.withThen v body k) s = msteps (M.inFrame body k) (v :: s) + 1
    rw [msteps_inFrame]
    simp [msteps]
    omega
  | inFrame body k ihb ihk =>
    intro s c' s' h
    cases hb : isTerminal body with
    | true =>
      cases body with
      | ret a =>
        simp [stepF] at h
        obtain ⟨hc, hs⟩ := h
        subst hc; subst hs
        exact ⟨rfl, by rw [msteps_inFrame]; simp [msteps, runM, Nat.add_comm]⟩
      | fail e =>
        simp [stepF] at h
        obtain ⟨hc, hs⟩ := h
        subst hc; subst hs
        exact ⟨rfl, by rw [msteps_inFrame]; simp [msteps, runM]⟩
      | getThen kk => simp [isTerminal] at hb
      | withThen vv bb kk => simp [isTerminal] at hb
      | inFrame bb kk => simp [isTerminal] at hb
    | false =>
      rw [stepF_inFrame_nonterminal body k s hb, Option.map_eq_some'] at h
      obtain ⟨⟨b', sb'⟩, hstep, hcs⟩ := h
      dsimp only at hcs
      obtain ⟨hc, hs⟩ := Prod.mk.inj hcs
      subst hc; subst hs
      obtain ⟨hrun, hcount⟩ := ihb s b' sb' hstep
      constructor
      · rw [runM_inFrame, runM_inFrame, hrun]
      · rw [msteps_inFrame, msteps_inFrame, hrun, hcount]
        omega

theorem iterStep_succ {T R : Type} (n : Nat) (c : M T R × List T) :
    iterStep (n + 1) c = iterStep n (step1 c) := rfl

theorem step1_termCfg {T R : Type} (x : Except Err R × List T) :
    step1 (termCfg x) = termCfg x := by
  obtain ⟨r | e, s⟩ := x <;> rfl

theorem iterStep_termCfg {T R : Type} (n : Nat)
    (x : Except Err R × List T) : iterStep n (termCfg x) = termCfg x := by
  induction n with
  | zero => rfl
  | succ n ih => rw [iterStep_succ, step1_termCfg, ih]

theorem iterStep_add {T R : Type} (a b : Nat) (c : M T R × List T) :
    iterStep (a + b) c = iterStep b (iterStep a c) := by
  induction a generalizing c with
  | zero => rw [Nat.zero_add]; rfl
  | succ a ih => rw [Nat.succ_add, iterStep_succ, iterStep_succ, ih]

/-- Running a machine program for exactly its step count reaches the
terminal configuration of its big-step outcome. -/
theorem iterStep_msteps :
    ∀ (n : Nat) {T R : Type} (c : M T R) (s : List T), msteps c s = n →
      iterStep n (c, s) = termCfg (runM c s) := by
  intro n
  induction n with
  | zero =>
    intro T R c s hn
    cases c with
    | ret r => rfl
    | fail e => rfl
    | getThen k => cases s <;> simp [msteps] at hn
    | withThen v body k => simp [msteps] at hn
    | inFrame body k => rw [msteps_inFrame] at hn; omega
  | succ n ih =>
    intro T R c s hn
    cases c with
    | ret r => simp [msteps] at hn
    | fail e => simp [msteps] at hn
    | getThen k =>
      have hsome := stepF_isSome (M.getThen k) s rfl
      obtain ⟨⟨c', s'⟩, hstep⟩ := Option.isSome_iff_exists.mp hsome
      obtain ⟨hrun, hcount⟩ := stepF_sound _ _ _ _ hstep
      rw [iterStep_succ]
      have hst : step1 (M.getThen k, s) = (c', s') := by simp [step1, hstep]
      rw [hst, ih c' s' (by omega), hrun]
    | withThen v body k =>
      have hsome := stepF_isSome (M.withThen v body k) s rfl
      obtain ⟨⟨c', s'⟩, hstep⟩ := Option.isSome_iff_exists.mp hsome
      obtain ⟨hrun, hcount⟩ := stepF_sound _ _ _ _ hstep
      rw [iterStep_succ]
      have hst : step1 (M.withThen v body k, s) = (c', s') := by
        simp [step1, hstep]
      rw [hst, ih c' s' (by omega), hrun]
    | inFrame body k =>
      have hsome := stepF_isSome (M.inFrame body k) s rfl
      obtain ⟨⟨c', s'⟩, hstep⟩ := Option.isSome_iff_exists.mp hsome
      obtain ⟨hrun, hcount⟩ := stepF_sound _ _ _ _ hstep
      rw [iterStep_succ]
      have hst : step1 (M.inFrame body k, s) = (c', s') := by
        simp [step1, hstep]
      rw [hst, ih c' s' (by omega), hrun]

/-- Running a machine program for at least its step count reaches (and stays
at) the terminal configuration of its big-step outcome. -/
theorem iterStep_ge {T R : Type} (n : Nat) (c : M T R) (s : List T)
    (h : msteps c s ≤ n) : iterStep n (c, s) = termCfg (runM c s) := by
  obtain ⟨d, hd⟩ := Nat.exists_eq_add_of_le h
  subst hd
  rw [iterStep_add, iterStep_msteps (msteps c s) c s rfl, iterStep_termCfg]

/-- The joint interleaved execution factors into the two independent
per-thread executions: each thread's final configuration depends only on how
many of its own steps were scheduled, never on the other thread. -/
theorem run2threads_components {T R1 R2 : Type} (sched : List Bool)
    (c1 : M T R1 × List T) (c2 : M T R2 × List T) :
    run2threads sched (c1, c2) =
      (iterStep (sched.count true) c1, iterStep (sched.count false) c2) := by
  induction sched generalizing c1 c2 with
  | nil => rfl
  | cons b rest ih =>
    cases b with
    | true =>
      simp [run2threads, ih, List.count_cons, iterStep_succ]
    | false =>
      simp [run2threads, ih, List.count_cons, iterStep_succ]

/-- C8: Two concurrently running threads are fully isolated, regardless of
interleaving.  Threads spawned inside an action start with their own
initially-empty stacks (a fresh thread's `thread_local` stack is
default-constructed empty), and under every schedule that lets both threads
finish, each thread ends in exactly the terminal configuration of its own
single-thread run from its own empty stack — its result and final stack are
functions of its own program alone, so neither thread ever observes the
other's value. -/
theorem c8_thread_isolation {T R1 R2 : Type} (p1 : Prog T R1)
    (p2 : Prog T R2) (sched : List Bool)
    (h1 : msteps (toM p1) [] ≤ sched.count true)
    (h2 : msteps (toM p2) [] ≤ sched.count false) :
    run2threads sched ((toM p1, ([] : List T)), (toM p2, ([] : List T))) =
      (termCfg ((run p1 []).res, (run p1 []).stk),
        termCfg ((run p2 []).res, (run p2 []).stk)) := by
  rw [run2threads_components, iterStep_ge _ _ _ h1, iterStep_ge _ _ _ h2,
    runM_toM, runM_toM]

/-- Witness for C8: thread 1 runs `makeCurrent 10 (get; ...)` and thread 2
runs `makeCurrent 99 (get; ...)` under a strictly alternating schedule; both
finish with their own results and their own empty stacks. -/
theorem c8_witness :
    run2threads [true, false, true, false, true, false]
        ((toM (Prog.withThen 10 (Prog.getThen fun _ => Prog.ret ())
            (Prog.ret 0)), ([] : List Nat)),
          (toM (Prog.withThen 99 (Prog.getThen fun _ => Prog.ret ())
            (Prog.ret 1)), ([] : List Nat))) =
      (termCfg ((run (Prog.withThen 10 (Prog.getThen fun _ => Prog.ret ())
            (Prog.ret 0)) []).res,
          (run (Prog.withThen 10 (Prog.getThen fun _ => Prog.ret ())
            (Prog.ret 0)) []).stk),
        termCfg ((run (Prog.withThen 99 (Prog.getThen fun _ => Prog.ret ())
            (Prog.ret 1)) []).res,
          (run (Prog.withThen 99 (Prog.getThen fun _ => Prog.ret ())
            (Prog.ret 1)) []).stk)) :=
  c8_thread_isolation _ _ _ (by decide) (by decide)

end Currenton
